import Mathlib

set_option maxHeartbeats 1000000
set_option linter.unusedVariables false

/-! Shallow embedding of the launch-video-breakdown overlay encoder core:
src/lib/mediabunny-encoder.ts (encodeVideoWithOverlay, drawTimelineOverlay,
drawColoredPillsOverlay) together with the TimelineDots live-preview tick.
Times and pixel quantities are rationals; JS Math.round, Math.floor and
Math.ceil are modelled exactly on ℚ. Text measurement (ctx.measureText) is
injected as a list of measured widths. -/

/-- Section data model from src/types/index.ts. -/
structure Section where
  name : String
  startTime : ℚ
  endTime : ℚ
  confidence : Option ℚ := none
  deriving Repr, DecidableEq, Inhabited

/-- JS Math.round: round half toward positive infinity. -/
def jsRound (x : ℚ) : ℤ := ⌊x + 1/2⌋

/-- JS Array.prototype.findIndex: index of the first element satisfying the
predicate, or -1 when none does. -/
def jsFindIndex (p : Section → Bool) : List Section → ℤ
  | [] => -1
  | s :: rest =>
      if p s then 0
      else
        let r := jsFindIndex p rest
        if r = -1 then -1 else r + 1

/-- The active-section predicate of the encoder frame loop
(mediabunny-encoder.ts lines 108-110) and of the live preview tick:
currentTime >= s.startTime && currentTime < s.endTime. -/
def activePred (t : ℚ) (s : Section) : Bool :=
  decide (s.startTime ≤ t) && decide (t < s.endTime)

/-- Active-section resolution shared by the encoder (lines 107-113) and the
live preview (TimelineDots lines 113-118): first section whose half-open
range contains t, falling back to the last index when no range contains t
but t is at or past the last section's start. -/
def resolveActiveIdx (sections : List Section) (t : ℚ) : ℤ :=
  let activeIdx := jsFindIndex (activePred t) sections
  if activeIdx = -1 ∧ sections.length > 0 ∧
      t ≥ (sections.getLastD default).startTime then
    (sections.length : ℤ) - 1
  else activeIdx

/-- Section-weighted progress fraction of drawTimelineOverlay
(lines 210-221): (activeIdx + intra-section progress) / numSections, with
pct = 1 past the last section's end and 0 otherwise. -/
def sectionPct (sections : List Section) (currentTime : ℚ) (activeIdx : ℤ) : ℚ :=
  let numSections := sections.length
  if activeIdx ≥ 0 then
    let s := sections.getD activeIdx.toNat default
    let sectionProg := min ((currentTime - s.startTime) / (s.endTime - s.startTime)) 1
    ((activeIdx : ℚ) + sectionProg) / (numSections : ℚ)
  else if currentTime ≥ (sections.getLastD default).endTime then 1
  else 0

/-- Ease-out curve (line 167-169). -/
def easeOut (t : ℚ) : ℚ := 1 - (1 - t) * (1 - t)

/-- Linear interpolation (line 171-173). -/
def lerp (a b t : ℚ) : ℚ := a + (b - a) * t

/-- TRANSITION_DURATION constant (line 81), in seconds. -/
def TRANSITION_DURATION : ℚ := 3 / 10

/-- The cross-frame mutable state of the encoder's transition tracker
(lines 82-84), with its initial values as defaults. -/
structure TrackerState where
  prevActiveIdx : ℤ := -1
  leavingIdx : ℤ := -1
  transitionStartTime : ℚ := -1
  deriving Repr, DecidableEq

/-- Per-frame tracker update (lines 116-120): on an active-index change,
record the previous index as leaving and restart the transition clock. -/
def trackerStep (st : TrackerState) (activeIdx : ℤ) (currentTime : ℚ) :
    TrackerState :=
  if activeIdx ≠ st.prevActiveIdx then
    { prevActiveIdx := activeIdx, leavingIdx := st.prevActiveIdx,
      transitionStartTime := currentTime }
  else st

/-- Raw transition progress (lines 122-124): min of elapsed/window and 1,
or 1 when no transition has started yet. -/
def transitionT (st : TrackerState) (currentTime : ℚ) : ℚ :=
  if st.transitionStartTime ≥ 0 then
    min ((currentTime - st.transitionStartTime) / TRANSITION_DURATION) 1
  else 1

/-- The leavingIdx value handed to the renderers (lines 136 and 142):
cleared to -1 once the transition has completed. -/
def rendererLeavingIdx (st : TrackerState) (currentTime : ℚ) : ℤ :=
  if transitionT st currentTime < 1 then st.leavingIdx else -1

/-- TransitionState record passed into both renderers (lines 183-187). -/
structure TransitionState where
  activeIdx : ℤ
  leavingIdx : ℤ
  transitionT : ℚ
  deriving Repr, DecidableEq

/-- Animated weight of pill number index (lines 266-271 and 591-596):
the entering pill blends by easedT, the exiting pill by 1 - easedT. -/
def pillWeight (activeIdx leavingIdx : ℤ) (easedT : ℚ) (index : ℤ) : ℚ :=
  if index = activeIdx then (if leavingIdx ≥ 0 then easedT else 1)
  else if index = leavingIdx then 1 - easedT
  else 0

/-- Observable outputs of drawTimelineOverlay for one call. -/
structure TimelineRender where
  pct : ℚ
  sectionProgress : ℚ
  badgePercent : ℤ
  totalDots : ℤ
  pillWeights : List ℚ
  deriving Repr, DecidableEq

/-- Observable state of a drawTimelineOverlay call (lines 189-232 and
415-418): none when the section list is empty (line 199 returns before
anything is drawn), otherwise the section-weighted pct, the intra-section
progress, the floored badge percentage, the dot count, and the animated
per-pill weights. -/
def drawTimelineOverlay (sections : List Section)
    (currentTime duration canvasWidth : ℚ) (transition : TransitionState) :
    Option TimelineRender :=
  let numSections := sections.length
  if numSections = 0 then none
  else
    let easedT := easeOut transition.transitionT
    let S := canvasWidth / 1280
    let pct := sectionPct sections currentTime transition.activeIdx
    let sectionProgress :=
      if transition.activeIdx ≥ 0 then
        let s := sections.getD transition.activeIdx.toNat default
        min ((currentTime - s.startTime) / (s.endTime - s.startTime)) 1
      else 0
    let maxDotsFromSpacing := ⌊620 * S / (14 * S)⌋
    let totalDots := max 20 (min maxDotsFromSpacing (jsRound (duration * 1.15)))
    some { pct := pct, sectionProgress := sectionProgress,
           badgePercent := ⌊pct * 100⌋, totalDots := totalDots,
           pillWeights := (List.range numSections).map fun i =>
             pillWeight transition.activeIdx transition.leavingIdx easedT (i : ℤ) }

/-- Fixed output frame rate (line 57). -/
def fps : ℚ := 30

/-- Total output frames (line 87): Math.ceil(duration * fps). -/
def totalFrames (duration : ℚ) : ℕ := (⌈duration * fps⌉).toNat

/-- Per-frame presentation duration (line 88): 1 / fps. -/
def frameDuration : ℚ := 1 / fps

/-- Observable pipeline events of one encodeVideoWithOverlay run. -/
inductive EncodeEvent where
  | addVideoTrack : EncodeEvent
  | warnAudioFailed : EncodeEvent
  | addAudioTrack : EncodeEvent
  | startOutput : EncodeEvent
  | appendFrame (frameIndex : ℕ) (timestamp frameDur : ℚ) : EncodeEvent
  | reportProgress (value : ℚ) : EncodeEvent
  | finalizeOutput : EncodeEvent
  deriving Repr, DecidableEq

/-- Events of the audio step (lines 64-78): on success the audio track is
attached and the output started; on failure a warning is logged and the
output is still started, with no audio track. -/
def audioPhase (audioOk : Bool) : List EncodeEvent :=
  if audioOk then [EncodeEvent.addAudioTrack, EncodeEvent.startOutput]
  else [EncodeEvent.warnAudioFailed, EncodeEvent.startOutput]

/-- Events of the frame loop (lines 90-154): frame frameIndex is appended
with timestamp frameIndex / fps and duration 1/fps (line 148), then the
progress callback fires with (frameIndex + 1) / totalFrames (line 152). -/
def frameEvents (duration : ℚ) : List EncodeEvent :=
  (List.range (totalFrames duration)).flatMap fun frameIndex =>
    [EncodeEvent.appendFrame frameIndex ((frameIndex : ℚ) / fps) frameDuration,
     EncodeEvent.reportProgress (((frameIndex : ℚ) + 1) / (totalFrames duration : ℚ))]

/-- Result of a completed encode run: the event trace and whether the
returned blob carries an audio track. -/
structure EncodeRun where
  events : List EncodeEvent
  hasAudio : Bool
  deriving Repr, DecidableEq

/-- The completed run produced on the non-rejecting path: video track added,
audio phase, frame loop, finalization. -/
def encodeRunOf (audioOk : Bool) (duration : ℚ) : EncodeRun :=
  { events := [EncodeEvent.addVideoTrack] ++ audioPhase audioOk ++
      frameEvents duration ++ [EncodeEvent.finalizeOutput],
    hasAudio := audioOk }

/-- Control-flow model of encodeVideoWithOverlay (lines 16-164): a video
that fails to load rejects the whole run (line 33); an audio failure is
caught, logged and the run continues video-only (lines 75-78); otherwise
the video track is added, the audio phase runs, every frame is appended
with its progress report, and the output is finalized into a blob. -/
def encodeVideoWithOverlay (videoLoads audioOk : Bool) (duration : ℚ) :
    Except String EncodeRun :=
  if videoLoads then Except.ok (encodeRunOf audioOk duration)
  else Except.error "Failed to load video"

/-- Recognizer for appendFrame events. -/
def EncodeEvent.isAppendFrame : EncodeEvent → Bool
  | EncodeEvent.appendFrame _ _ _ => true
  | _ => false

/-- Recognizer for reportProgress events. -/
def EncodeEvent.isReportProgress : EncodeEvent → Bool
  | EncodeEvent.reportProgress _ => true
  | _ => false

/-- The (timestamp, duration) pairs handed to the muxer, in order. -/
def appendedFrames (duration : ℚ) : List (ℚ × ℚ) :=
  (frameEvents duration).filterMap fun e =>
    match e with
    | EncodeEvent.appendFrame _ ts d => some (ts, d)
    | _ => none

/-- The values reported to the progress callback, in order. -/
def progressReports (duration : ℚ) : List ℚ :=
  (frameEvents duration).filterMap fun e =>
    match e with
    | EncodeEvent.reportProgress v => some v
    | _ => none

/-- Pill-width computation of drawColoredPillsOverlay (lines 507-564): each
pill's minimum width is its measured text width plus fixed padding on both
sides; the slack left in the available width is distributed in proportion
to section duration and the result rounded. -/
structure ColoredPillLayout where
  pillGap : ℤ
  maxPillsWidth : ℤ
  availableWidth : ℚ
  totalDuration : ℚ
  minWidths : List ℚ
  extraSpace : ℚ
  pillWidths : List ℤ
  deriving Repr, DecidableEq

/-- Pill gap of drawColoredPillsOverlay (line 525): Math.round(10 * S). -/
def coloredPillGap (canvasWidth : ℚ) : ℤ := jsRound (10 * (canvasWidth / 1280))

/-- Maximum pills width (line 526): Math.round(620 * S). -/
def coloredMaxPillsWidth (canvasWidth : ℚ) : ℤ := jsRound (620 * (canvasWidth / 1280))

/-- Available width (line 527): maxPillsWidth - pillGap * (numSections - 1). -/
def coloredAvailableWidth (canvasWidth : ℚ) (numSections : ℕ) : ℚ :=
  (coloredMaxPillsWidth canvasWidth : ℚ)
    - (coloredPillGap canvasWidth : ℚ) * ((numSections : ℚ) - 1)

/-- Horizontal text padding (line 542): Math.round(24 * S). -/
def coloredPadX (canvasWidth : ℚ) : ℚ := (jsRound (24 * (canvasWidth / 1280)) : ℤ)

/-- First pass (lines 546-553): minimum pill widths, measured text width
plus fixed padding on both sides. -/
def coloredMinWidths (textWidths : List ℚ) (canvasWidth : ℚ) : List ℚ :=
  textWidths.map fun w => w + coloredPadX canvasWidth * 2

/-- Total section duration (line 523). -/
def totalDurationOf (sections : List Section) : ℚ :=
  (sections.map fun s => s.endTime - s.startTime).sum

/-- Remaining budget (line 556): max(0, availableWidth - totalMinWidth). -/
def coloredExtraSpace (textWidths : List ℚ) (sections : List Section)
    (canvasWidth : ℚ) : ℚ :=
  max 0 (coloredAvailableWidth canvasWidth sections.length
    - (coloredMinWidths textWidths canvasWidth).sum)

/-- Second pass (lines 557-561): each pill's width is its minimum plus a
duration-proportional share of the remaining budget, rounded. -/
def coloredPillWidths (textWidths : List ℚ) (sections : List Section)
    (canvasWidth : ℚ) : List ℤ :=
  ((coloredMinWidths textWidths canvasWidth).zip sections).map fun p =>
    let secDur := p.2.endTime - p.2.startTime
    let extraShare :=
      if totalDurationOf sections > 0 then
        secDur / totalDurationOf sections * coloredExtraSpace textWidths sections canvasWidth
      else 0
    jsRound (p.1 + extraShare)

/-- Layout pass of drawColoredPillsOverlay (lines 507-564), with
ctx.measureText injected as textWidths. -/
def drawColoredPillsLayout (textWidths : List ℚ) (sections : List Section)
    (canvasWidth : ℚ) : ColoredPillLayout :=
  { pillGap := coloredPillGap canvasWidth,
    maxPillsWidth := coloredMaxPillsWidth canvasWidth,
    availableWidth := coloredAvailableWidth canvasWidth sections.length,
    totalDuration := totalDurationOf sections,
    minWidths := coloredMinWidths textWidths canvasWidth,
    extraSpace := coloredExtraSpace textWidths sections canvasWidth,
    pillWidths := coloredPillWidths textWidths sections canvasWidth }

/-- Progress fraction of the live preview tick (TimelineDots lines 111-134),
including the zero-section fallback to the raw time fraction. -/
def previewPct (sections : List Section) (t : ℚ) (duration : ℚ) : ℚ :=
  let numSections := sections.length
  if numSections = 0 then
    if duration > 0 then min (t / duration) 1 else 0
  else
    let idx := resolveActiveIdx sections t
    if idx ≥ 0 then
      let s := sections.getD idx.toNat default
      let sectionProg := min ((t - s.startTime) / (s.endTime - s.startTime)) 1
      ((idx : ℚ) + sectionProg) / (numSections : ℚ)
    else 0

/-- Well-formed section lists: positive length and ordered without overlap,
as the spec's Section Model assumes. -/
def sectionsWellFormed (sections : List Section) : Prop :=
  (∀ s ∈ sections, s.startTime < s.endTime) ∧
    sections.Pairwise fun a b => a.endTime ≤ b.startTime

/-- Concrete two-section fixture used by witness instantiations: the spec's
end-to-end example sections Intro [0,10) and Features [10,40). -/
def demoSections : List Section :=
  [⟨"Intro", 0, 10, none⟩, ⟨"Features", 10, 40, none⟩]

/-! Helper lemmas about the JS findIndex model and section resolution. -/

theorem activePred_iff {t : ℚ} {s : Section} :
    activePred t s = true ↔ s.startTime ≤ t ∧ t < s.endTime := by
  simp [activePred]

theorem activePred_eq_false_iff {t : ℚ} {s : Section} :
    activePred t s = false ↔ ¬(s.startTime ≤ t ∧ t < s.endTime) := by
  simp [activePred]

theorem jsFindIndex_eq_neg_one {p : Section → Bool} :
    ∀ {l : List Section}, (∀ s ∈ l, p s = false) → jsFindIndex p l = -1 := by
  intro l
  induction l with
  | nil => intro _; rfl
  | cons s rest ih =>
      intro h
      have hs : p s = false := h s (List.mem_cons_self s rest)
      have hrest : jsFindIndex p rest = -1 := ih fun x hx => h x (List.mem_cons_of_mem s hx)
      simp [jsFindIndex, hs, hrest]

theorem jsFindIndex_of_first {p : Section → Bool} :
    ∀ (l : List Section) (i : ℕ) (hi : i < l.length),
      p (l.get ⟨i, hi⟩) = true →
      (∀ j (hj : j < l.length), j < i → p (l.get ⟨j, hj⟩) = false) →
      jsFindIndex p l = (i : ℤ) := by
  intro l
  induction l with
  | nil => intro i hi; simp at hi
  | cons s rest ih =>
      intro i hi hp hmin
      match i with
      | 0 =>
          simp only [List.get] at hp
          simp [jsFindIndex, hp]
      | Nat.succ k =>
          have hs : p s = false := by
            have := hmin 0 (by simp) (Nat.succ_pos k)
            simpa using this
          have hk : k < rest.length := by simpa using hi
          have hpk : p (rest.get ⟨k, hk⟩) = true := by simpa using hp
          have hmink : ∀ j (hj : j < rest.length), j < k → p (rest.get ⟨j, hj⟩) = false := by
            intro j hj hjk
            have := hmin (j + 1) (by simpa using Nat.succ_lt_succ hj) (Nat.succ_lt_succ hjk)
            simpa using this
          have hrest : jsFindIndex p rest = (k : ℤ) := ih k hk hpk hmink
          have hne : (k : ℤ) ≠ -1 := by omega
          simp [jsFindIndex, hs, hrest, hne]

theorem jsFindIndex_eq_coe {p : Section → Bool} :
    ∀ (l : List Section) (i : ℕ), jsFindIndex p l = (i : ℤ) →
      ∃ hi : i < l.length, p (l.get ⟨i, hi⟩) = true := by
  intro l
  induction l with
  | nil =>
      intro i h
      simp [jsFindIndex] at h
  | cons s rest ih =>
      intro i h
      by_cases hs : p s = true
      · have : (0 : ℤ) = (i : ℤ) := by simpa [jsFindIndex, hs] using h
        have hi0 : i = 0 := by omega
        subst hi0
        exact ⟨by simp, by simpa using hs⟩
      · have hs' : p s = false := by simpa using hs
        simp only [jsFindIndex, hs', if_false] at h
        by_cases hrest : jsFindIndex p rest = -1
        · simp [hrest] at h
        · simp only [hrest, if_false] at h
          match i with
          | 0 =>
              exfalso
              exact hrest (by push_cast at h; omega)
          | Nat.succ k =>
              have hk : jsFindIndex p rest = (k : ℤ) := by push_cast at h; omega
              obtain ⟨hklt, hpk⟩ := ih k hk
              exact ⟨by simpa using Nat.succ_lt_succ hklt, by simpa using hpk⟩

theorem getD_eq_get {α : Type} [Inhabited α] (l : List α) (n : ℕ) (hn : n < l.length)
    (d : α) : l.getD n d = l.get ⟨n, hn⟩ := by
  simp [List.getD_eq_getElem?_getD, List.getElem?_eq_getElem hn, List.get_eq_getElem]

theorem getLastD_eq_get {α : Type} [Inhabited α] (l : List α) (hne : l ≠ []) (d : α) :
    l.getLastD d = l.get ⟨l.length - 1, by have := List.length_pos.mpr hne; omega⟩ := by
  rw [List.getLastD_eq_getLast?, List.getLast?_eq_getLast l hne]
  simp [List.getLast_eq_getElem, List.get_eq_getElem]

/-- In a well-formed list the active predicate can hold at no index below one
where it holds: earlier sections end at or before this section starts. -/
theorem wf_first_active {sections : List Section} {t : ℚ}
    (hwf : sectionsWellFormed sections) (i : ℕ) (hi : i < sections.length)
    (hact : activePred t (sections.get ⟨i, hi⟩) = true) :
    ∀ j (hj : j < sections.length), j < i → activePred t (sections.get ⟨j, hj⟩) = false := by
  intro j hj hji
  have hpair : (sections.get ⟨j, hj⟩).endTime ≤ (sections.get ⟨i, hi⟩).startTime :=
    List.pairwise_iff_get.1 hwf.2 ⟨j, hj⟩ ⟨i, hi⟩ hji
  have hst : (sections.get ⟨i, hi⟩).startTime ≤ t := (activePred_iff.mp hact).1
  rw [activePred_eq_false_iff]
  intro hcon
  exact absurd hcon.2 (by linarith)

/-- When a well-formed section's half-open range contains t, the resolution
returns exactly that index. -/
theorem resolveActiveIdx_of_mem {sections : List Section} {t : ℚ}
    (hwf : sectionsWellFormed sections) (i : ℕ) (hi : i < sections.length)
    (h1 : (sections.get ⟨i, hi⟩).startTime ≤ t)
    (h2 : t < (sections.get ⟨i, hi⟩).endTime) :
    resolveActiveIdx sections t = (i : ℤ) := by
  have hact : activePred t (sections.get ⟨i, hi⟩) = true := activePred_iff.mpr ⟨h1, h2⟩
  have hfi : jsFindIndex (activePred t) sections = (i : ℤ) :=
    jsFindIndex_of_first sections i hi hact (wf_first_active hwf i hi hact)
  unfold resolveActiveIdx
  simp only [hfi]
  rw [if_neg]
  intro hcon
  exact absurd hcon.1 (by omega)

/-- When no section's range contains t but t is at or past the last start,
the resolution falls back to the last index. -/
theorem resolveActiveIdx_fallback {sections : List Section} {t : ℚ}
    (h1 : ∀ s ∈ sections, ¬(s.startTime ≤ t ∧ t < s.endTime))
    (hne : sections ≠ [])
    (h2 : (sections.getLastD default).startTime ≤ t) :
    resolveActiveIdx sections t = (sections.length : ℤ) - 1 := by
  have hfi : jsFindIndex (activePred t) sections = -1 :=
    jsFindIndex_eq_neg_one fun s hs => activePred_eq_false_iff.mpr (h1 s hs)
  have hlen : 0 < sections.length := List.length_pos.mpr hne
  unfold resolveActiveIdx
  simp only [hfi]
  rw [if_pos ⟨trivial, hlen, h2⟩]

/-- When no section's range contains t and t is before the last start (or
the list is empty), the resolution returns -1. -/
theorem resolveActiveIdx_none {sections : List Section} {t : ℚ}
    (h1 : ∀ s ∈ sections, ¬(s.startTime ≤ t ∧ t < s.endTime))
    (h2 : sections ≠ [] → t < (sections.getLastD default).startTime) :
    resolveActiveIdx sections t = -1 := by
  have hfi : jsFindIndex (activePred t) sections = -1 :=
    jsFindIndex_eq_neg_one fun s hs => activePred_eq_false_iff.mpr (h1 s hs)
  unfold resolveActiveIdx
  simp only [hfi]
  rw [if_neg]
  · intro hcon
    rcases hcon with ⟨-, hlen, hge⟩
    have hne : sections ≠ [] := by
      intro hnil
      rw [hnil] at hlen
      simp at hlen
    exact absurd hge (not_le.mpr (h2 hne))

/-- Whenever the resolution returns a nonnegative index k, k is in range and
t is at or past section k's start. -/
theorem resolveActiveIdx_coe_facts {sections : List Section} {t : ℚ} (k : ℕ)
    (hk : resolveActiveIdx sections t = (k : ℤ)) :
    ∃ hlt : k < sections.length, (sections.get ⟨k, hlt⟩).startTime ≤ t := by
  unfold resolveActiveIdx at hk
  by_cases hcond : jsFindIndex (activePred t) sections = -1 ∧ 0 < sections.length ∧
      (sections.getLastD default).startTime ≤ t
  · rw [if_pos (by exact ⟨hcond.1, hcond.2.1, hcond.2.2⟩)] at hk
    have hne : sections ≠ [] := List.length_pos.mp hcond.2.1
    have hkval : k = sections.length - 1 := by omega
    subst hkval
    refine ⟨by omega, ?_⟩
    have := hcond.2.2
    rwa [getLastD_eq_get sections hne default] at this
  · rw [if_neg (by exact hcond)] at hk
    obtain ⟨hlt, hact⟩ := jsFindIndex_eq_coe sections k hk
    exact ⟨hlt, (activePred_iff.mp hact).1⟩

theorem jsFindIndex_ge_neg_one (p : Section → Bool) :
    ∀ l : List Section, -1 ≤ jsFindIndex p l := by
  intro l
  induction l with
  | nil => simp [jsFindIndex]
  | cons s rest ih =>
      by_cases hs : p s
      · simp [jsFindIndex, hs]
      · simp only [jsFindIndex, hs, if_false]
        by_cases hrest : jsFindIndex p rest = -1 <;> simp [hrest] <;> omega

/-- The resolution returns -1 or an in-range index whose start is at or
before t. -/
theorem resolveActiveIdx_cases (sections : List Section) (t : ℚ) :
    resolveActiveIdx sections t = -1 ∨
      ∃ k : ℕ, resolveActiveIdx sections t = (k : ℤ) ∧
        ∃ hlt : k < sections.length, (sections.get ⟨k, hlt⟩).startTime ≤ t := by
  by_cases hneg : resolveActiveIdx sections t = -1
  · exact Or.inl hneg
  · right
    have hge : 0 ≤ resolveActiveIdx sections t := by
      unfold resolveActiveIdx at hneg ⊢
      by_cases hcond : jsFindIndex (activePred t) sections = -1 ∧ 0 < sections.length ∧
          (sections.getLastD default).startTime ≤ t
      · rw [if_pos (by exact ⟨hcond.1, hcond.2.1, hcond.2.2⟩)] at hneg ⊢
        omega
      · rw [if_neg (by exact hcond)] at hneg ⊢
        rcases jsFindIndex_ge_neg_one (activePred t) sections with h
        omega
    obtain ⟨k, hkval⟩ := Int.eq_ofNat_of_zero_le hge
    exact ⟨k, hkval, resolveActiveIdx_coe_facts k hkval⟩

theorem demoSections_wf : sectionsWellFormed demoSections := by
  constructor
  · decide
  · decide

/-- C3: for every time t and every ordered non-overlapping section list, the
active-section resolution shared by the encoder and the live preview returns
the index of the section whose half-open range [startTime, endTime) contains
t; if no such section exists but the list is non-empty and t is at or past
the last section's start, it returns the last index; otherwise it
returns -1. -/
theorem active_section_resolution_contract (sections : List Section) (t : ℚ)
    (hwf : sectionsWellFormed sections) :
    (∀ i (hi : i < sections.length),
        (sections.get ⟨i, hi⟩).startTime ≤ t → t < (sections.get ⟨i, hi⟩).endTime →
        resolveActiveIdx sections t = (i : ℤ))
    ∧ ((∀ s ∈ sections, ¬(s.startTime ≤ t ∧ t < s.endTime)) → sections ≠ [] →
        (sections.getLastD default).startTime ≤ t →
        resolveActiveIdx sections t = (sections.length : ℤ) - 1)
    ∧ ((∀ s ∈ sections, ¬(s.startTime ≤ t ∧ t < s.endTime)) →
        (sections ≠ [] → t < (sections.getLastD default).startTime) →
        resolveActiveIdx sections t = -1) := by
  refine ⟨?_, ?_, ?_⟩
  · intro i hi h1 h2
    exact resolveActiveIdx_of_mem hwf i hi h1 h2
  · intro h1 hne h2
    exact resolveActiveIdx_fallback h1 hne h2
  · intro h1 h2
    exact resolveActiveIdx_none h1 h2

/-- Witness for C3: the contract instantiated on the two-section fixture at
t = 25, with all hypotheses discharged concretely. -/
theorem active_section_resolution_contract_witness :
    (∀ i (hi : i < demoSections.length),
        (demoSections.get ⟨i, hi⟩).startTime ≤ 25 →
          (25 : ℚ) < (demoSections.get ⟨i, hi⟩).endTime →
        resolveActiveIdx demoSections 25 = (i : ℤ))
    ∧ ((∀ s ∈ demoSections, ¬(s.startTime ≤ 25 ∧ (25 : ℚ) < s.endTime)) →
        demoSections ≠ [] →
        (demoSections.getLastD default).startTime ≤ 25 →
        resolveActiveIdx demoSections 25 = (demoSections.length : ℤ) - 1)
    ∧ ((∀ s ∈ demoSections, ¬(s.startTime ≤ 25 ∧ (25 : ℚ) < s.endTime)) →
        (demoSections ≠ [] → (25 : ℚ) < (demoSections.getLastD default).startTime) →
        resolveActiveIdx demoSections 25 = -1) :=
  active_section_resolution_contract demoSections 25 demoSections_wf

/-- The intra-section progress term of sectionPct is nonnegative whenever t
is at or past the section's start and the section has positive length. -/
theorem sectionProg_nonneg {s : Section} {t : ℚ} (h1 : s.startTime ≤ t)
    (h2 : s.startTime < s.endTime) :
    0 ≤ min ((t - s.startTime) / (s.endTime - s.startTime)) 1 := by
  have hden : 0 < s.endTime - s.startTime := by linarith
  have hnum : 0 ≤ t - s.startTime := by linarith
  have := div_nonneg hnum (le_of_lt hden)
  exact le_min this (by norm_num)

/-- C2: for every well-formed non-empty section list, whenever the resolved
active index is k the badge progress fraction of drawTimelineOverlay equals
(k + clamp((t - start_k)/(end_k - start_k), 0, 1)) / numSections; at
t = startTime of section i the fraction is exactly i / N, and at the last
section's endTime it is exactly 1. -/
theorem section_weighted_progress (sections : List Section) (t : ℚ) (k : ℕ)
    (hwf : sectionsWellFormed sections) (hne : sections ≠ [])
    (hk : resolveActiveIdx sections t = (k : ℤ)) :
    sectionPct sections t ((k : ℕ) : ℤ)
      = ((k : ℚ) + max 0 (min ((t - (sections.getD k default).startTime) /
            ((sections.getD k default).endTime - (sections.getD k default).startTime)) 1))
        / (sections.length : ℚ)
    ∧ (∀ i (hi : i < sections.length),
        sectionPct sections (sections.get ⟨i, hi⟩).startTime
            (resolveActiveIdx sections (sections.get ⟨i, hi⟩).startTime)
          = (i : ℚ) / (sections.length : ℚ))
    ∧ sectionPct sections ((sections.getLastD default).endTime)
          (resolveActiveIdx sections ((sections.getLastD default).endTime)) = 1 := by
  have hlen : 0 < sections.length := List.length_pos.mpr hne
  refine ⟨?_, ?_, ?_⟩
  · obtain ⟨hlt, hstart⟩ := resolveActiveIdx_coe_facts k hk
    have hmem : sections.get ⟨k, hlt⟩ ∈ sections := sections.get_mem _ _
    have hse : (sections.get ⟨k, hlt⟩).startTime < (sections.get ⟨k, hlt⟩).endTime :=
      hwf.1 _ hmem
    rw [getD_eq_get sections k hlt default]
    unfold sectionPct
    rw [if_pos (by positivity)]
    rw [max_eq_right (sectionProg_nonneg hstart hse)]
    simp [List.getElem?_eq_getElem hlt, List.get_eq_getElem]
  · intro i hi
    have hmem : sections.get ⟨i, hi⟩ ∈ sections := sections.get_mem _ _
    have hse : (sections.get ⟨i, hi⟩).startTime < (sections.get ⟨i, hi⟩).endTime :=
      hwf.1 _ hmem
    rw [resolveActiveIdx_of_mem hwf i hi (le_refl _) hse]
    unfold sectionPct
    rw [if_pos (by positivity)]
    simp [List.getElem?_eq_getElem hi, List.get_eq_getElem, sub_self, zero_div]
  · have hlt : sections.length - 1 < sections.length := by omega
    set last := sections.get ⟨sections.length - 1, hlt⟩ with hlast
    have hmemlast : last ∈ sections := sections.get_mem _ _
    have hselast : last.startTime < last.endTime := hwf.1 _ hmemlast
    have hgetD : sections.getLastD default = last := by
      rw [getLastD_eq_get sections hne default]
    have hnone : ∀ s ∈ sections, ¬(s.startTime ≤ last.endTime ∧ last.endTime < s.endTime) := by
      intro s hs hcon
      obtain ⟨j, hjeq⟩ := List.mem_iff_get.mp hs
      by_cases hjlast : (j : ℕ) = sections.length - 1
      · rw [← hjeq] at hcon
        have : sections.get j = last := by
          rw [hlast]
          congr 1
          exact Fin.ext hjlast
        rw [this] at hcon
        exact absurd hcon.2 (lt_irrefl _)
      · have hjlt : (j : ℕ) < sections.length - 1 := by
          have := j.isLt
          omega
        have hpair : (sections.get j).endTime ≤ last.startTime :=
          List.pairwise_iff_get.1 hwf.2 j ⟨sections.length - 1, hlt⟩ hjlt
        rw [← hjeq] at hcon
        linarith [hcon.2, hpair, hselast]
    have hres : resolveActiveIdx sections last.endTime = (sections.length : ℤ) - 1 := by
      refine resolveActiveIdx_fallback hnone hne ?_
      rw [hgetD]
      linarith
    rw [hgetD, hres]
    unfold sectionPct
    rw [if_pos (by omega)]
    have htn : ((sections.length : ℤ) - 1).toNat = sections.length - 1 := by omega
    rw [htn]
    rw [getD_eq_get sections (sections.length - 1) hlt default, ← hlast]
    have hdiv : (last.endTime - last.startTime) / (last.endTime - last.startTime) = 1 :=
      div_self (by linarith)
    simp only [hdiv, min_self]
    have hcast : (((sections.length : ℤ) - 1 : ℤ) : ℚ) = (sections.length : ℚ) - 1 := by
      push_cast
      ring
    rw [hcast]
    have hNne : (sections.length : ℚ) ≠ 0 := Nat.cast_ne_zero.mpr (by omega)
    field_simp

/-- Witness for C2: the progress equalities instantiated on the two-section
fixture at t = 25, which resolves to index 1. -/
theorem section_weighted_progress_witness :
    sectionPct demoSections 25 ((1 : ℕ) : ℤ)
      = ((1 : ℚ) + max 0 (min ((25 - (demoSections.getD 1 default).startTime) /
            ((demoSections.getD 1 default).endTime - (demoSections.getD 1 default).startTime)) 1))
        / (demoSections.length : ℚ)
    ∧ (∀ i (hi : i < demoSections.length),
        sectionPct demoSections (demoSections.get ⟨i, hi⟩).startTime
            (resolveActiveIdx demoSections (demoSections.get ⟨i, hi⟩).startTime)
          = (i : ℚ) / (demoSections.length : ℚ))
    ∧ sectionPct demoSections ((demoSections.getLastD default).endTime)
          (resolveActiveIdx demoSections ((demoSections.getLastD default).endTime)) = 1 :=
  section_weighted_progress demoSections 25 1 demoSections_wf (by decide) (by decide)

/-- The progress fraction lies in [0, 1] for any index the encoder's
resolution rule can produce on a well-formed non-empty list. -/
theorem sectionPct_bounds (sections : List Section) (t : ℚ)
    (hwf : sectionsWellFormed sections) (hne : sections ≠ []) :
    0 ≤ sectionPct sections t (resolveActiveIdx sections t) ∧
      sectionPct sections t (resolveActiveIdx sections t) ≤ 1 := by
  have hlen : 0 < sections.length := List.length_pos.mpr hne
  rcases resolveActiveIdx_cases sections t with hneg | ⟨k, hkeq, hlt, hstart⟩
  · rw [hneg]
    unfold sectionPct
    rw [if_neg (by omega)]
    by_cases hpast : t ≥ (sections.getLastD default).endTime
    · rw [if_pos hpast]
      norm_num
    · rw [if_neg hpast]
      norm_num
  · rw [hkeq]
    have hmem : sections.get ⟨k, hlt⟩ ∈ sections := sections.get_mem _ _
    have hse : (sections.get ⟨k, hlt⟩).startTime < (sections.get ⟨k, hlt⟩).endTime :=
      hwf.1 _ hmem
    unfold sectionPct
    rw [if_pos (by positivity)]
    have hprog0 : 0 ≤ min ((t - (sections.get ⟨k, hlt⟩).startTime) /
        ((sections.get ⟨k, hlt⟩).endTime - (sections.get ⟨k, hlt⟩).startTime)) 1 :=
      sectionProg_nonneg hstart hse
    have hprog1 : min ((t - (sections.get ⟨k, hlt⟩).startTime) /
        ((sections.get ⟨k, hlt⟩).endTime - (sections.get ⟨k, hlt⟩).startTime)) 1 ≤ 1 :=
      min_le_right _ _
    have hNpos : (0 : ℚ) < (sections.length : ℚ) := by positivity
    have hgd : sections.getD ((k : ℤ)).toNat default = sections.get ⟨k, hlt⟩ := by
      rw [Int.toNat_natCast]
      exact getD_eq_get sections k hlt default
    simp only [hgd, Int.cast_natCast]
    constructor
    · apply div_nonneg _ (le_of_lt hNpos)
      positivity
    · rw [div_le_one hNpos]
      have hkN : (k : ℚ) + 1 ≤ (sections.length : ℚ) := by
        have : k + 1 ≤ sections.length := hlt
        exact_mod_cast this
      linarith

/-- C10: for every well-formed non-empty section list and every frame time,
with the active index produced by the encoder's resolution rule, the
section-weighted fraction computed by drawTimelineOverlay lies in [0, 1]
and the rendered badge percentage floor(pct * 100) lies in [0, 100]. -/
theorem badge_percent_in_range (sections : List Section) (t : ℚ)
    (hwf : sectionsWellFormed sections) (hne : sections ≠ []) :
    (0 ≤ sectionPct sections t (resolveActiveIdx sections t)
      ∧ sectionPct sections t (resolveActiveIdx sections t) ≤ 1)
    ∧ ∀ (duration canvasWidth : ℚ) (lv : ℤ) (tt : ℚ) (r : TimelineRender),
        drawTimelineOverlay sections t duration canvasWidth
            ⟨resolveActiveIdx sections t, lv, tt⟩ = some r →
        r.pct = sectionPct sections t (resolveActiveIdx sections t)
          ∧ r.badgePercent = ⌊sectionPct sections t (resolveActiveIdx sections t) * 100⌋
          ∧ 0 ≤ r.badgePercent ∧ r.badgePercent ≤ 100 := by
  obtain ⟨h0, h1⟩ := sectionPct_bounds sections t hwf hne
  refine ⟨⟨h0, h1⟩, ?_⟩
  intro duration canvasWidth lv tt r hr
  have hlenne : sections.length ≠ 0 := fun h => hne (List.length_eq_zero.mp h)
  unfold drawTimelineOverlay at hr
  rw [if_neg hlenne] at hr
  dsimp only at hr
  rw [Option.some.injEq] at hr
  subst hr
  refine ⟨rfl, rfl, ?_, ?_⟩
  · show (0 : ℤ) ≤ ⌊sectionPct sections t (resolveActiveIdx sections t) * 100⌋
    apply Int.le_floor.mpr
    push_cast
    nlinarith
  · show ⌊sectionPct sections t (resolveActiveIdx sections t) * 100⌋ ≤ 100
    calc ⌊sectionPct sections t (resolveActiveIdx sections t) * 100⌋
        ≤ ⌊(100 : ℚ)⌋ := Int.floor_le_floor (by nlinarith)
      _ = 100 := by norm_num

/-- Witness for C10: the bounds instantiated on the two-section fixture at
t = 25. -/
theorem badge_percent_in_range_witness :
    (0 ≤ sectionPct demoSections 25 (resolveActiveIdx demoSections 25)
      ∧ sectionPct demoSections 25 (resolveActiveIdx demoSections 25) ≤ 1)
    ∧ ∀ (duration canvasWidth : ℚ) (lv : ℤ) (tt : ℚ) (r : TimelineRender),
        drawTimelineOverlay demoSections 25 duration canvasWidth
            ⟨resolveActiveIdx demoSections 25, lv, tt⟩ = some r →
        r.pct = sectionPct demoSections 25 (resolveActiveIdx demoSections 25)
          ∧ r.badgePercent = ⌊sectionPct demoSections 25 (resolveActiveIdx demoSections 25) * 100⌋
          ∧ 0 ≤ r.badgePercent ∧ r.badgePercent ≤ 100 :=
  badge_percent_in_range demoSections 25 demoSections_wf (by decide)

theorem appendedFrames_eq (duration : ℚ) :
    appendedFrames duration
      = (List.range (totalFrames duration)).map fun i : ℕ => ((i : ℚ) / fps, frameDuration) := by
  unfold appendedFrames frameEvents
  generalize List.range (totalFrames duration) = l
  induction l with
  | nil => rfl
  | cons a l ih =>
      simp only [List.flatMap_cons, List.filterMap_append, List.map_cons, ih]
      rfl

theorem progressReports_eq (duration : ℚ) :
    progressReports duration
      = (List.range (totalFrames duration)).map
          fun i : ℕ => ((i : ℚ) + 1) / (totalFrames duration : ℚ) := by
  unfold progressReports frameEvents
  generalize List.range (totalFrames duration) = l
  induction l with
  | nil => rfl
  | cons a l ih =>
      simp only [List.flatMap_cons, List.filterMap_append, List.map_cons, ih]
      rfl

theorem totalFrames_pos {duration : ℚ} (hd : 0 < duration) : 0 < totalFrames duration := by
  unfold totalFrames
  have : (0 : ℤ) < ⌈duration * fps⌉ := by
    apply Int.ceil_pos.mpr
    have : (0 : ℚ) < fps := by norm_num [fps]
    positivity
  omega

theorem appendedFrames_get (duration : ℚ) (i : ℕ)
    (hi : i < (appendedFrames duration).length) :
    (appendedFrames duration).get ⟨i, hi⟩ = ((i : ℚ) / fps, frameDuration) := by
  have hlen : (appendedFrames duration).length = totalFrames duration := by
    rw [appendedFrames_eq]; simp
  have hi' : i < totalFrames duration := by omega
  rw [List.get_eq_getElem]
  rw [List.getElem_of_eq (appendedFrames_eq duration) hi]
  simp

/-- C1: for every positive duration the frame loop appends exactly
ceil(duration * fps) frames with fps = 30; frame i carries presentation
timestamp i / fps and duration 1/fps, so timestamps are strictly increasing
and evenly spaced by 1/fps including the final frame; for duration 40 there
are exactly 1200 frames, frame 0 at timestamp 0 and frame 1199 at
timestamp 1199/30. -/
theorem frame_loop_count_and_timestamps (duration : ℚ) (hd : 0 < duration) :
    (appendedFrames duration).length = totalFrames duration
    ∧ totalFrames duration = (⌈duration * 30⌉).toNat
    ∧ (∀ i (hi : i < (appendedFrames duration).length),
        (appendedFrames duration).get ⟨i, hi⟩ = ((i : ℚ) / 30, 1 / 30))
    ∧ (∀ i j (hi : i < (appendedFrames duration).length)
          (hj : j < (appendedFrames duration).length), i < j →
        ((appendedFrames duration).get ⟨i, hi⟩).1 < ((appendedFrames duration).get ⟨j, hj⟩).1)
    ∧ (∀ i j (hi : i < (appendedFrames duration).length)
          (hj : j < (appendedFrames duration).length), j = i + 1 →
        ((appendedFrames duration).get ⟨j, hj⟩).1 - ((appendedFrames duration).get ⟨i, hi⟩).1
          = 1 / 30)
    ∧ (appendedFrames 40).length = 1200
    ∧ (∀ h0 : 0 < (appendedFrames 40).length, ((appendedFrames 40).get ⟨0, h0⟩).1 = 0)
    ∧ (∀ h1 : 1199 < (appendedFrames 40).length,
        ((appendedFrames 40).get ⟨1199, h1⟩).1 = 1199 / 30) := by
  have hlen : ∀ d : ℚ, (appendedFrames d).length = totalFrames d := by
    intro d
    rw [appendedFrames_eq]; simp
  have hget : ∀ (d : ℚ) i (hi : i < (appendedFrames d).length),
      (appendedFrames d).get ⟨i, hi⟩ = ((i : ℚ) / 30, 1 / 30) := by
    intro d i hi
    have := appendedFrames_get d i hi
    rwa [show fps = (30 : ℚ) from rfl, show frameDuration = (1 / 30 : ℚ) from rfl] at this
  refine ⟨hlen duration, rfl, hget duration, ?_, ?_, ?_, ?_, ?_⟩
  · intro i j hi hj hij
    rw [hget duration i hi, hget duration j hj]
    have hcast : (i : ℚ) < (j : ℚ) := by exact_mod_cast hij
    show (i : ℚ) / 30 < (j : ℚ) / 30
    exact div_lt_div_of_pos_right hcast (by norm_num)
  · intro i j hi hj hji
    rw [hget duration i hi, hget duration j hj, hji]
    push_cast
    ring
  · rw [hlen 40]
    norm_num [totalFrames, fps]
    rfl
  · intro h0
    rw [hget 40 0 h0]
    norm_num
  · intro h1
    rw [hget 40 1199 h1]
    norm_num

/-- Witness for C1: the frame-loop properties instantiated at duration 1. -/
theorem frame_loop_count_and_timestamps_witness :
    (appendedFrames 1).length = totalFrames 1
    ∧ totalFrames 1 = (⌈(1 : ℚ) * 30⌉).toNat
    ∧ (∀ i (hi : i < (appendedFrames 1).length),
        (appendedFrames 1).get ⟨i, hi⟩ = ((i : ℚ) / 30, 1 / 30))
    ∧ (∀ i j (hi : i < (appendedFrames 1).length)
          (hj : j < (appendedFrames 1).length), i < j →
        ((appendedFrames 1).get ⟨i, hi⟩).1 < ((appendedFrames 1).get ⟨j, hj⟩).1)
    ∧ (∀ i j (hi : i < (appendedFrames 1).length)
          (hj : j < (appendedFrames 1).length), j = i + 1 →
        ((appendedFrames 1).get ⟨j, hj⟩).1 - ((appendedFrames 1).get ⟨i, hi⟩).1 = 1 / 30)
    ∧ (appendedFrames 40).length = 1200
    ∧ (∀ h0 : 0 < (appendedFrames 40).length, ((appendedFrames 40).get ⟨0, h0⟩).1 = 0)
    ∧ (∀ h1 : 1199 < (appendedFrames 40).length,
        ((appendedFrames 40).get ⟨1199, h1⟩).1 = 1199 / 30) :=
  frame_loop_count_and_timestamps 1 (by norm_num)

theorem frameEvents_filter (duration : ℚ) :
    (frameEvents duration).filter
        (fun e => e.isAppendFrame || e.isReportProgress) = frameEvents duration := by
  unfold frameEvents
  generalize List.range (totalFrames duration) = l
  induction l with
  | nil => rfl
  | cons a l ih =>
      rw [List.flatMap_cons, List.filter_append, ih]
      rfl

theorem frameEvents_all_frame_or_report (duration : ℚ) :
    ∀ e ∈ frameEvents duration, (e.isAppendFrame || e.isReportProgress) = true :=
  List.filter_eq_self.mp (frameEvents_filter duration)

theorem frameEvents_append_count (duration : ℚ) :
    ((frameEvents duration).filter EncodeEvent.isAppendFrame).length
      = totalFrames duration := by
  unfold frameEvents
  have key : ∀ l : List ℕ,
      ((l.flatMap fun frameIndex =>
          [EncodeEvent.appendFrame frameIndex ((frameIndex : ℚ) / fps) frameDuration,
           EncodeEvent.reportProgress
             (((frameIndex : ℚ) + 1) / (totalFrames duration : ℚ))]).filter
        EncodeEvent.isAppendFrame).length = l.length := by
    intro l
    induction l with
    | nil => rfl
    | cons a l ih =>
        have hone : (List.filter EncodeEvent.isAppendFrame
            [EncodeEvent.appendFrame a ((a : ℚ) / fps) frameDuration,
             EncodeEvent.reportProgress
               (((a : ℚ) + 1) / (totalFrames duration : ℚ))]).length = 1 := rfl
        rw [List.flatMap_cons, List.filter_append, List.length_append, hone, ih,
          List.length_cons]
        omega
  rw [key]
  simp

/-- C5: for every positive duration the progress callback fires exactly once
per frame, immediately after that frame is appended, with value
(frameIndex + 1) / totalFrames; the reported values are non-decreasing and
the final value is exactly 1. -/
theorem progress_callback_contract (duration : ℚ) (hd : 0 < duration) :
    (progressReports duration).length = totalFrames duration
    ∧ (∀ i (hi : i < (progressReports duration).length),
        (progressReports duration).get ⟨i, hi⟩
          = ((i : ℚ) + 1) / (totalFrames duration : ℚ))
    ∧ (progressReports duration).Chain' (fun a b => a ≤ b)
    ∧ (progressReports duration).getLast? = some 1
    ∧ (∀ (audioOk : Bool) (r : EncodeRun),
        encodeVideoWithOverlay true audioOk duration = Except.ok r →
        r.events.filter (fun e => e.isAppendFrame || e.isReportProgress)
          = frameEvents duration) := by
  have hN : 0 < totalFrames duration := totalFrames_pos hd
  have hNQ : (0 : ℚ) < (totalFrames duration : ℚ) := by exact_mod_cast hN
  refine ⟨?_, ?_, ?_, ?_, ?_⟩
  · rw [progressReports_eq]
    simp
  · intro i hi
    rw [List.get_eq_getElem]
    rw [List.getElem_of_eq (progressReports_eq duration) hi]
    simp
  · rw [progressReports_eq]
    apply List.Pairwise.chain'
    rw [List.pairwise_map]
    apply List.Pairwise.imp ?_ (List.pairwise_lt_range _)
    intro a b hab
    have hcast : (a : ℚ) ≤ (b : ℚ) := by exact_mod_cast le_of_lt hab
    exact (div_le_div_iff_of_pos_right hNQ).mpr (by linarith)
  · obtain ⟨m, hm⟩ : ∃ m, totalFrames duration = m + 1 := ⟨totalFrames duration - 1, by omega⟩
    rw [progressReports_eq, hm, List.range_succ, List.map_append, List.map_singleton]
    rw [List.getLast?_concat]
    simp only [Option.some.injEq]
    push_cast
    apply div_self
    positivity
  · intro audioOk r hr
    have hrval : r = encodeRunOf audioOk duration := by
      simpa [encodeVideoWithOverlay] using hr.symm
    subst hrval
    simp only [encodeRunOf, List.filter_append]
    rw [frameEvents_filter]
    cases audioOk <;>
      simp [audioPhase, List.filter, EncodeEvent.isAppendFrame, EncodeEvent.isReportProgress]

/-- Witness for C5: the progress-callback contract instantiated at
duration 1. -/
theorem progress_callback_contract_witness :
    (progressReports 1).length = totalFrames 1
    ∧ (∀ i (hi : i < (progressReports 1).length),
        (progressReports 1).get ⟨i, hi⟩ = ((i : ℚ) + 1) / (totalFrames 1 : ℚ))
    ∧ (progressReports 1).Chain' (fun a b => a ≤ b)
    ∧ (progressReports 1).getLast? = some 1
    ∧ (∀ (audioOk : Bool) (r : EncodeRun),
        encodeVideoWithOverlay true audioOk 1 = Except.ok r →
        r.events.filter (fun e => e.isAppendFrame || e.isReportProgress)
          = frameEvents 1) :=
  progress_callback_contract 1 (by norm_num)

/-- C6: an audio-step failure never aborts the run: the failure is logged,
the output is still started, every video frame is still appended, and a
video-only blob is returned; on the success path the audio track is
attached and the output started before any video frame is appended. -/
theorem audio_failure_continues_video_only (duration : ℚ) :
    (∃ r : EncodeRun, encodeVideoWithOverlay true false duration = Except.ok r
      ∧ EncodeEvent.warnAudioFailed ∈ r.events
      ∧ r.hasAudio = false
      ∧ EncodeEvent.addAudioTrack ∉ r.events
      ∧ (r.events.filter EncodeEvent.isAppendFrame).length = totalFrames duration
      ∧ EncodeEvent.finalizeOutput ∈ r.events)
    ∧ (∀ (audioOk : Bool) (r : EncodeRun),
        encodeVideoWithOverlay true audioOk duration = Except.ok r →
        ∃ pre post, r.events = pre ++ post
          ∧ EncodeEvent.startOutput ∈ pre
          ∧ (audioOk = true → EncodeEvent.addAudioTrack ∈ pre)
          ∧ ∀ e ∈ pre, e.isAppendFrame = false) := by
  have hnotfe : EncodeEvent.addAudioTrack ∉ frameEvents duration := by
    intro hmem
    have := frameEvents_all_frame_or_report duration _ hmem
    simp [EncodeEvent.isAppendFrame, EncodeEvent.isReportProgress] at this
  constructor
  · refine ⟨encodeRunOf false duration, rfl, ?_, rfl, ?_, ?_, ?_⟩
    · simp [encodeRunOf, audioPhase]
    · simp [encodeRunOf, audioPhase, hnotfe]
    · have h1 : List.filter EncodeEvent.isAppendFrame [EncodeEvent.addVideoTrack] = [] := rfl
      have h2 : List.filter EncodeEvent.isAppendFrame (audioPhase false) = [] := rfl
      have h3 : List.filter EncodeEvent.isAppendFrame [EncodeEvent.finalizeOutput] = [] := rfl
      simp only [encodeRunOf, List.filter_append, h1, h2, h3, List.length_append,
        frameEvents_append_count, List.length_nil]
      omega
    · simp [encodeRunOf]
  · intro audioOk r hr
    have hrval : r = encodeRunOf audioOk duration := by
      simpa [encodeVideoWithOverlay] using hr.symm
    subst hrval
    refine ⟨[EncodeEvent.addVideoTrack] ++ audioPhase audioOk,
      frameEvents duration ++ [EncodeEvent.finalizeOutput], ?_, ?_, ?_, ?_⟩
    · simp [encodeRunOf]
    · cases audioOk <;> simp [audioPhase]
    · intro hok
      subst hok
      simp [audioPhase]
    · intro e he
      rcases List.mem_append.mp he with h | h
      · simp only [List.mem_singleton] at h
        subst h
        rfl
      · cases audioOk
        · simp [audioPhase] at h
          rcases h with h | h <;> subst h <;> rfl
        · simp [audioPhase] at h
          rcases h with h | h <;> subst h <;> rfl

/-- Witness for C6: the audio-failure tolerance instantiated at
duration 1. -/
theorem audio_failure_continues_video_only_witness :
    (∃ r : EncodeRun, encodeVideoWithOverlay true false 1 = Except.ok r
      ∧ EncodeEvent.warnAudioFailed ∈ r.events
      ∧ r.hasAudio = false
      ∧ EncodeEvent.addAudioTrack ∉ r.events
      ∧ (r.events.filter EncodeEvent.isAppendFrame).length = totalFrames 1
      ∧ EncodeEvent.finalizeOutput ∈ r.events)
    ∧ (∀ (audioOk : Bool) (r : EncodeRun),
        encodeVideoWithOverlay true audioOk 1 = Except.ok r →
        ∃ pre post, r.events = pre ++ post
          ∧ EncodeEvent.startOutput ∈ pre
          ∧ (audioOk = true → EncodeEvent.addAudioTrack ∈ pre)
          ∧ ∀ e ∈ pre, e.isAppendFrame = false) :=
  audio_failure_continues_video_only 1

/-- Counterexample for C7: at duration 0 the encoder does not abort and does
not surface an input error; it runs zero frame iterations and still returns
a blob (here with a successfully attached audio track and no appended
frames). -/
theorem zero_duration_not_rejected :
    encodeVideoWithOverlay true true 0 =
      Except.ok { events := [EncodeEvent.addVideoTrack, EncodeEvent.addAudioTrack,
                             EncodeEvent.startOutput, EncodeEvent.finalizeOutput],
                  hasAudio := true } := by
  have h0 : totalFrames 0 = 0 := by simp [totalFrames]
  simp [encodeVideoWithOverlay, encodeRunOf, audioPhase, frameEvents, h0]

/-- C7 amended: duration 0 is not validated: totalFrames evaluates to 0, the
frame loop body never runs (no frame appended, no progress reported, hence
no NaN or Infinity from the (frameIndex+1)/totalFrames division), and the
run still finalizes into a blob instead of aborting. -/
theorem zero_duration_zero_frame_run (audioOk : Bool) :
    totalFrames 0 = 0
    ∧ appendedFrames 0 = []
    ∧ progressReports 0 = []
    ∧ ∃ r : EncodeRun, encodeVideoWithOverlay true audioOk 0 = Except.ok r
        ∧ r.events.filter EncodeEvent.isAppendFrame = []
        ∧ r.events.filter EncodeEvent.isReportProgress = []
        ∧ r.hasAudio = audioOk := by
  have h0 : totalFrames 0 = 0 := by simp [totalFrames]
  have hfe : frameEvents 0 = [] := by
    unfold frameEvents
    rw [h0]
    rfl
  refine ⟨h0, ?_, ?_, ?_⟩
  · unfold appendedFrames
    rw [hfe]
    rfl
  · unfold progressReports
    rw [hfe]
    rfl
  · refine ⟨encodeRunOf audioOk 0, rfl, ?_, ?_, rfl⟩
    · simp only [encodeRunOf, hfe]
      cases audioOk <;> rfl
    · simp only [encodeRunOf, hfe]
      cases audioOk <;> rfl

/-- C4: on a frame where the active index changes, the tracker records the
previous index as leaving and the current time as transition start; from
then on rawT = min((currentTime - transitionStartTime)/0.3, 1), the
entering pill's weight is easedT and the exiting pill's is 1 - easedT,
easedT is non-decreasing within the window and reaches exactly 1 at or
after transitionStartTime + 0.3, and the leavingIdx passed to the renderer
is -1 exactly when rawT has reached 1. -/
theorem transition_tracker_contract (st : TrackerState) (a : ℤ) (c : ℚ)
    (hchange : a ≠ st.prevActiveIdx) (hc : 0 ≤ c) :
    trackerStep st a c
      = { prevActiveIdx := a, leavingIdx := st.prevActiveIdx, transitionStartTime := c }
    ∧ (∀ c2, transitionT (trackerStep st a c) c2
        = min ((c2 - c) / TRANSITION_DURATION) 1)
    ∧ (∀ c1 c2, c ≤ c1 → c1 ≤ c2 →
        easeOut (transitionT (trackerStep st a c) c1)
          ≤ easeOut (transitionT (trackerStep st a c) c2))
    ∧ (∀ c2, c + TRANSITION_DURATION ≤ c2 →
        easeOut (transitionT (trackerStep st a c) c2) = 1)
    ∧ (st.prevActiveIdx ≥ 0 → ∀ eT : ℚ,
        pillWeight a st.prevActiveIdx eT a = eT
          ∧ pillWeight a st.prevActiveIdx eT st.prevActiveIdx = 1 - eT)
    ∧ (st.prevActiveIdx ≥ 0 → ∀ c2,
        (rendererLeavingIdx (trackerStep st a c) c2 = -1
          ↔ transitionT (trackerStep st a c) c2 = 1)) := by
  have hTD : (0 : ℚ) < TRANSITION_DURATION := by norm_num [TRANSITION_DURATION]
  have hstep : trackerStep st a c
      = { prevActiveIdx := a, leavingIdx := st.prevActiveIdx,
          transitionStartTime := c } := by
    rw [trackerStep, if_pos hchange]
  have hT : ∀ c2, transitionT (trackerStep st a c) c2
      = min ((c2 - c) / TRANSITION_DURATION) 1 := by
    intro c2
    rw [hstep]
    unfold transitionT
    rw [if_pos hc]
  refine ⟨hstep, hT, ?_, ?_, ?_, ?_⟩
  · intro c1 c2 hc1 h12
    rw [hT c1, hT c2]
    set x := min ((c1 - c) / TRANSITION_DURATION) 1 with hx
    set y := min ((c2 - c) / TRANSITION_DURATION) 1 with hy
    have hxy : x ≤ y :=
      min_le_min ((div_le_div_iff_of_pos_right hTD).mpr (by linarith)) (le_refl 1)
    have hy1 : y ≤ 1 := min_le_right _ _
    have hx1 : x ≤ 1 := min_le_right _ _
    have hprod : 0 ≤ (y - x) * (2 - x - y) :=
      mul_nonneg (sub_nonneg.mpr hxy) (by linarith)
    unfold easeOut
    nlinarith [hprod]
  · intro c2 h2
    rw [hT c2]
    have : (c2 - c) / TRANSITION_DURATION ≥ 1 := by
      rw [ge_iff_le, le_div_iff hTD]
      linarith
    rw [min_eq_right this]
    norm_num [easeOut]
  · intro hlv eT
    constructor
    · unfold pillWeight
      rw [if_pos rfl, if_pos hlv]
    · unfold pillWeight
      rw [if_neg (by omega), if_pos rfl]
  · intro hlv c2
    rw [hstep]
    have hle : transitionT
        { prevActiveIdx := a, leavingIdx := st.prevActiveIdx, transitionStartTime := c } c2
        ≤ 1 := by
      have hTc := hT c2
      rw [hstep] at hTc
      rw [hTc]
      exact min_le_right _ _
    unfold rendererLeavingIdx
    by_cases hlt : transitionT
        { prevActiveIdx := a, leavingIdx := st.prevActiveIdx, transitionStartTime := c } c2 < 1
    · rw [if_pos hlt]
      constructor
      · intro hcon
        have hcon2 : st.prevActiveIdx = -1 := hcon
        omega
      · intro hcon
        linarith
    · rw [if_neg hlt]
      exact ⟨fun _ => by linarith [not_lt.mp hlt], fun _ => rfl⟩

/-- Witness for C4: the tracker contract instantiated at the first frame of
an encode run, where the initial state (prevActiveIdx = -1) changes to
active index 0 at time 0. -/
theorem transition_tracker_contract_witness :
    trackerStep { prevActiveIdx := 1, leavingIdx := -1, transitionStartTime := 0 } 0 2
      = { prevActiveIdx := 0, leavingIdx := 1, transitionStartTime := 2 }
    ∧ (∀ c2, transitionT
        (trackerStep { prevActiveIdx := 1, leavingIdx := -1, transitionStartTime := 0 } 0 2) c2
        = min ((c2 - 2) / TRANSITION_DURATION) 1)
    ∧ (∀ c1 c2, (2 : ℚ) ≤ c1 → c1 ≤ c2 →
        easeOut (transitionT
          (trackerStep { prevActiveIdx := 1, leavingIdx := -1, transitionStartTime := 0 } 0 2) c1)
          ≤ easeOut (transitionT
            (trackerStep { prevActiveIdx := 1, leavingIdx := -1, transitionStartTime := 0 } 0 2) c2))
    ∧ (∀ c2, (2 : ℚ) + TRANSITION_DURATION ≤ c2 →
        easeOut (transitionT
          (trackerStep { prevActiveIdx := 1, leavingIdx := -1, transitionStartTime := 0 } 0 2) c2) = 1)
    ∧ ((1 : ℤ) ≥ 0 → ∀ eT : ℚ,
        pillWeight 0 1 eT 0 = eT ∧ pillWeight 0 1 eT 1 = 1 - eT)
    ∧ ((1 : ℤ) ≥ 0 → ∀ c2,
        (rendererLeavingIdx
            (trackerStep { prevActiveIdx := 1, leavingIdx := -1, transitionStartTime := 0 } 0 2) c2 = -1
          ↔ transitionT
              (trackerStep { prevActiveIdx := 1, leavingIdx := -1, transitionStartTime := 0 } 0 2) c2 = 1)) :=
  transition_tracker_contract
    { prevActiveIdx := 1, leavingIdx := -1, transitionStartTime := 0 } 0 2
    (by decide) (by norm_num)

/-- Counterexample for C9: with zero sections the encoder's overlay renderer
returns before drawing anything at all (line 199), so no progress value -
in particular not the raw fraction t/duration = 1/2 at t = 5, duration =
10 - is used by it. -/
theorem empty_sections_renderer_draws_nothing :
    drawTimelineOverlay [] 5 10 1280
      { activeIdx := -1, leavingIdx := -1, transitionT := 1 } = none := rfl

/-- C9 amended: with zero sections and positive duration the encoder
renderer does not throw - it returns without drawing any overlay - while
the raw-fraction fallback min(t/duration, 1) lives only in the live
preview tick (TimelineDots lines 123-124). -/
theorem empty_sections_no_throw_preview_fallback (t duration canvasWidth : ℚ)
    (tr : TransitionState) (hd : 0 < duration) :
    drawTimelineOverlay [] t duration canvasWidth tr = none
    ∧ previewPct [] t duration = min (t / duration) 1 := by
  constructor
  · rfl
  · unfold previewPct
    simp only [List.length_nil]
    rw [if_pos trivial, if_pos hd]

/-- Witness for C9 amended: instantiated at t = 5, duration = 10. -/
theorem empty_sections_no_throw_preview_fallback_witness :
    drawTimelineOverlay [] 5 10 1280
        { activeIdx := -1, leavingIdx := -1, transitionT := 1 } = none
    ∧ previewPct [] 5 10 = min ((5 : ℚ) / 10) 1 :=
  empty_sections_no_throw_preview_fallback 5 10 1280
    { activeIdx := -1, leavingIdx := -1, transitionT := 1 } (by norm_num)

theorem jsRound_err (x : ℚ) : |(jsRound x : ℚ) - x| ≤ 1 / 2 := by
  unfold jsRound
  have h1 : ((⌊x + 1/2⌋ : ℤ) : ℚ) ≤ x + 1/2 := Int.floor_le _
  have h2 : x + 1/2 < ((⌊x + 1/2⌋ : ℤ) : ℚ) + 1 := Int.lt_floor_add_one _
  rw [abs_le]
  constructor <;> linarith

theorem sum_map_jsRound_err (l : List ℚ) :
    |((l.map jsRound).sum : ℚ) - l.sum| ≤ (l.length : ℚ) / 2 := by
  induction l with
  | nil => simp
  | cons a l ih =>
      simp only [List.map_cons, List.sum_cons, List.length_cons]
      have htri := abs_add ((jsRound a : ℚ) - a)
        (((l.map jsRound).sum : ℚ) - (l.sum : ℚ))
      have hja := jsRound_err a
      have hre : ((jsRound a + (l.map jsRound).sum : ℤ) : ℚ) - (a + l.sum)
          = ((jsRound a : ℚ) - a) + (((l.map jsRound).sum : ℚ) - (l.sum : ℚ)) := by
        push_cast
        ring
      rw [hre]
      have hlen : ((l.length + 1 : ℕ) : ℚ) / 2 = (l.length : ℚ) / 2 + 1 / 2 := by
        push_cast
        ring
      rw [hlen]
      calc |((jsRound a : ℚ) - a) + (((l.map jsRound).sum : ℚ) - (l.sum : ℚ))|
          ≤ |(jsRound a : ℚ) - a| + |((l.map jsRound).sum : ℚ) - (l.sum : ℚ)| := htri
        _ ≤ (l.length : ℚ) / 2 + 1 / 2 := by linarith

theorem sum_zip_split (g : Section → ℚ) :
    ∀ (mins : List ℚ) (secs : List Section), mins.length = secs.length →
      ((mins.zip secs).map fun p => p.1 + g p.2).sum = mins.sum + (secs.map g).sum := by
  intro mins
  induction mins with
  | nil =>
      intro secs h
      have : secs = [] := List.length_eq_zero.mp (by simpa using h.symm)
      subst this
      simp
  | cons a l ih =>
      intro secs h
      cases secs with
      | nil => simp at h
      | cons b bs =>
          simp only [List.zip_cons_cons, List.map_cons, List.sum_cons]
          rw [ih bs (by simpa using h)]
          ring

theorem sum_map_share (secs : List Section) (T E : ℚ) (hT : T ≠ 0)
    (hsum : (secs.map fun s => s.endTime - s.startTime).sum = T) :
    (secs.map fun s => (s.endTime - s.startTime) / T * E).sum = E := by
  have hcongr : (secs.map fun s => (s.endTime - s.startTime) / T * E)
      = secs.map fun s => (s.endTime - s.startTime) * (E / T) := by
    simp only [div_mul_eq_mul_div, mul_div_assoc]
  rw [hcongr, List.sum_map_mul_right, hsum]
  field_simp

/-- Counterexample for C8: for the two-section fixture (durations 10 and
30), measured text widths 52 each and canvas width 1280, the computed pill
widths are 203 and 408; their sum plus the pill gap is 621, not the
available width 610 - rounding to whole pixels plus the gap offset breaks
the claimed exact sum. -/
theorem colored_pills_sum_counterexample :
    ((drawColoredPillsLayout [52, 52] demoSections 1280).pillWidths.sum : ℚ)
        + ((drawColoredPillsLayout [52, 52] demoSections 1280).pillGap : ℚ)
          * ((demoSections.length : ℚ) - 1)
      ≠ (drawColoredPillsLayout [52, 52] demoSections 1280).availableWidth := by
  have hw : (drawColoredPillsLayout [52, 52] demoSections 1280).pillWidths = [203, 408] := by
    show coloredPillWidths [52, 52] demoSections 1280 = [203, 408]
    norm_num [coloredPillWidths, coloredMinWidths, coloredPadX, coloredExtraSpace,
      coloredAvailableWidth, coloredMaxPillsWidth, coloredPillGap, totalDurationOf,
      demoSections, jsRound, List.zip]
  have hg : (drawColoredPillsLayout [52, 52] demoSections 1280).pillGap = 10 := by
    show coloredPillGap 1280 = 10
    norm_num [coloredPillGap, jsRound]
  have ha : (drawColoredPillsLayout [52, 52] demoSections 1280).availableWidth = 610 := by
    show coloredAvailableWidth 1280 demoSections.length = 610
    norm_num [coloredAvailableWidth, coloredMaxPillsWidth, coloredPillGap, jsRound,
      demoSections]
  rw [hw, hg, ha]
  norm_num [demoSections]

theorem coloredPillWidths_eq (textWidths : List ℚ) (sections : List Section)
    (canvasWidth : ℚ) (hT : 0 < totalDurationOf sections) :
    coloredPillWidths textWidths sections canvasWidth
      = (((coloredMinWidths textWidths canvasWidth).zip sections).map fun p =>
          p.1 + (p.2.endTime - p.2.startTime) / totalDurationOf sections
            * coloredExtraSpace textWidths sections canvasWidth).map jsRound := by
  unfold coloredPillWidths
  simp only [if_pos hT, List.map_map]
  rfl

/-- C8 amended: with the gap-adjusted available width at least the total of
the minimum widths and a positive total duration, each pill's width is the
rounded value of its minimum plus a duration-proportional share of the
remaining budget - within half a pixel of the exact proportional value -
and the widths sum to the available width within half a pixel per pill;
adding the inter-pill gaps therefore reaches the maximum pills width
(Math.round(620 * S)), not the available width as literally claimed. -/
theorem colored_pills_proportional_layout (textWidths : List ℚ)
    (sections : List Section) (canvasWidth : ℚ)
    (hlen : textWidths.length = sections.length)
    (hT : 0 < totalDurationOf sections)
    (hfit : (coloredMinWidths textWidths canvasWidth).sum
      ≤ coloredAvailableWidth canvasWidth sections.length) :
    (drawColoredPillsLayout textWidths sections canvasWidth).pillWidths.length
        = sections.length
    ∧ (∀ i (hi1 : i < (coloredMinWidths textWidths canvasWidth).length)
          (hi2 : i < sections.length)
          (hi3 : i <
            (drawColoredPillsLayout textWidths sections canvasWidth).pillWidths.length),
        |(((drawColoredPillsLayout textWidths sections canvasWidth).pillWidths[i] : ℤ) : ℚ)
          - ((coloredMinWidths textWidths canvasWidth)[i]
            + (sections[i].endTime - sections[i].startTime) / totalDurationOf sections
              * coloredExtraSpace textWidths sections canvasWidth)| ≤ 1 / 2)
    ∧ |((drawColoredPillsLayout textWidths sections canvasWidth).pillWidths.sum : ℚ)
        - coloredAvailableWidth canvasWidth sections.length|
        ≤ (sections.length : ℚ) / 2
    ∧ |(((drawColoredPillsLayout textWidths sections canvasWidth).pillWidths.sum : ℚ)
          + (coloredPillGap canvasWidth : ℚ) * ((sections.length : ℚ) - 1))
        - (coloredMaxPillsWidth canvasWidth : ℚ)|
        ≤ (sections.length : ℚ) / 2 := by
  have hminslen : (coloredMinWidths textWidths canvasWidth).length = sections.length := by
    simp [coloredMinWidths, hlen]
  have hproj : (drawColoredPillsLayout textWidths sections canvasWidth).pillWidths
      = coloredPillWidths textWidths sections canvasWidth := rfl
  have hfull : (drawColoredPillsLayout textWidths sections canvasWidth).pillWidths
      = (((coloredMinWidths textWidths canvasWidth).zip sections).map fun p =>
          p.1 + (p.2.endTime - p.2.startTime) / totalDurationOf sections
            * coloredExtraSpace textWidths sections canvasWidth).map jsRound := by
    rw [hproj, coloredPillWidths_eq textWidths sections canvasWidth hT]
  have hziplen : ((coloredMinWidths textWidths canvasWidth).zip sections).length
      = sections.length := by
    simp [List.length_zip, hminslen]
  have hlength : (drawColoredPillsLayout textWidths sections canvasWidth).pillWidths.length
      = sections.length := by
    rw [hfull]
    simp [hziplen]
  have hE : coloredExtraSpace textWidths sections canvasWidth
      = coloredAvailableWidth canvasWidth sections.length
        - (coloredMinWidths textWidths canvasWidth).sum := by
    unfold coloredExtraSpace
    exact max_eq_right (by linarith)
  have hexact := sum_zip_split
    (fun s => (s.endTime - s.startTime) / totalDurationOf sections
      * coloredExtraSpace textWidths sections canvasWidth)
    (coloredMinWidths textWidths canvasWidth) sections hminslen
  have hshare := sum_map_share sections (totalDurationOf sections)
    (coloredExtraSpace textWidths sections canvasWidth) (ne_of_gt hT) rfl
  have hsum3 : |((drawColoredPillsLayout textWidths sections canvasWidth).pillWidths.sum : ℚ)
      - coloredAvailableWidth canvasWidth sections.length|
      ≤ (sections.length : ℚ) / 2 := by
    rw [hfull]
    have herr := sum_map_jsRound_err
      (((coloredMinWidths textWidths canvasWidth).zip sections).map fun p =>
        p.1 + (p.2.endTime - p.2.startTime) / totalDurationOf sections
          * coloredExtraSpace textWidths sections canvasWidth)
    rw [hexact, hshare] at herr
    have havail : (coloredMinWidths textWidths canvasWidth).sum
        + coloredExtraSpace textWidths sections canvasWidth
        = coloredAvailableWidth canvasWidth sections.length := by
      rw [hE]
      ring
    rw [havail] at herr
    simp only [List.length_map, hziplen] at herr
    exact herr
  refine ⟨hlength, ?_, hsum3, ?_⟩
  · intro i hi1 hi2 hi3
    rw [List.getElem_of_eq hfull hi3]
    simp only [List.getElem_map, List.getElem_zip]
    exact jsRound_err _
  · have hre2 : ((drawColoredPillsLayout textWidths sections canvasWidth).pillWidths.sum : ℚ)
        + (coloredPillGap canvasWidth : ℚ) * ((sections.length : ℚ) - 1)
        - (coloredMaxPillsWidth canvasWidth : ℚ)
        = ((drawColoredPillsLayout textWidths sections canvasWidth).pillWidths.sum : ℚ)
          - coloredAvailableWidth canvasWidth sections.length := by
      unfold coloredAvailableWidth
      ring
    rw [hre2]
    exact hsum3

/-- Witness for C8 amended: instantiated on the two-section fixture with
text widths 52 and canvas width 1280. -/
theorem colored_pills_proportional_layout_witness :
    (drawColoredPillsLayout [52, 52] demoSections 1280).pillWidths.length
        = demoSections.length
    ∧ (∀ i (hi1 : i < (coloredMinWidths [52, 52] 1280).length)
          (hi2 : i < demoSections.length)
          (hi3 : i < (drawColoredPillsLayout [52, 52] demoSections 1280).pillWidths.length),
        |(((drawColoredPillsLayout [52, 52] demoSections 1280).pillWidths[i] : ℤ) : ℚ)
          - ((coloredMinWidths [52, 52] 1280)[i]
            + (demoSections[i].endTime - demoSections[i].startTime)
                / totalDurationOf demoSections
              * coloredExtraSpace [52, 52] demoSections 1280)| ≤ 1 / 2)
    ∧ |((drawColoredPillsLayout [52, 52] demoSections 1280).pillWidths.sum : ℚ)
        - coloredAvailableWidth 1280 demoSections.length|
        ≤ (demoSections.length : ℚ) / 2
    ∧ |(((drawColoredPillsLayout [52, 52] demoSections 1280).pillWidths.sum : ℚ)
          + (coloredPillGap 1280 : ℚ) * ((demoSections.length : ℚ) - 1))
        - (coloredMaxPillsWidth 1280 : ℚ)|
        ≤ (demoSections.length : ℚ) / 2 :=
  colored_pills_proportional_layout [52, 52] demoSections 1280 rfl
    (by norm_num [totalDurationOf, demoSections])
    (by norm_num [coloredMinWidths, coloredPadX, coloredAvailableWidth,
      coloredMaxPillsWidth, coloredPillGap, jsRound, demoSections])

example : totalFrames 40 = 1200 := by norm_num [totalFrames, fps]; rfl
example : jsRound (2025 / 10) = 203 := by norm_num [jsRound]
example : resolveActiveIdx [⟨"Intro", 0, 10, none⟩, ⟨"Features", 10, 40, none⟩] 25 = 1 := by
  norm_num [resolveActiveIdx, jsFindIndex, activePred]
example : resolveActiveIdx [⟨"Intro", 0, 10, none⟩, ⟨"Features", 10, 40, none⟩] 40 = 1 := by
  norm_num [resolveActiveIdx, jsFindIndex, activePred, List.getLastD]
example : resolveActiveIdx [⟨"Intro", 0, 10, none⟩, ⟨"Features", 10, 40, none⟩] (-1) = -1 := by
  norm_num [resolveActiveIdx, jsFindIndex, activePred, List.getLastD]
